import Mathlib

/-!
Verification of the spa-base asset server (cmd/spa_d/serve.go).

The development shallowly embeds the request-handling pipeline of the Go
server: base-URL normalization, multi-root file lookup, precompressed
content negotiation, import fallback with its memoizing cache, SPA
fallback, and the header policy engine.  External collaborators
(filesystem, MIME registry, content sniffing, regular-expression
matchers) are modelled as oracles carried in an environment record, so
every pipeline function is an executable Lean function of the
environment, the configuration and the request.
-/

namespace SpaBase

/-! ## Go `path` package primitives

`path.Join` / `path.Clean` from the Go standard library, modelled by the
standard segment-stack formulation: split on slashes, drop empty and
`.` segments, let `..` pop a previous segment (or accumulate at the
front of a relative path, or vanish at the root of an absolute path).
-/

/-- Split a character list on `/`, keeping empty segments. -/
def splitSlash : List Char → List (List Char)
  | [] => [[]]
  | c :: rest =>
    if c = '/' then [] :: splitSlash rest
    else
      match splitSlash rest with
      | [] => [[c]]
      | seg :: segs => (c :: seg) :: segs

/-- Process cleaned path segments with a stack (head = most recent segment). -/
def cleanStack (rooted : Bool) (segs : List (List Char)) : List (List Char) :=
  segs.foldl
    (fun stack seg =>
      if seg = [] ∨ seg = ['.'] then stack
      else if seg = ['.', '.'] then
        match stack with
        | [] => if rooted then [] else [['.', '.']]
        | top :: rest => if top = ['.', '.'] then ['.', '.'] :: top :: rest else rest
      else seg :: stack)
    []

/-- Join path segments back with `/`. -/
def joinSegs : List (List Char) → List Char
  | [] => []
  | [s] => s
  | s :: rest => s ++ '/' :: joinSegs rest

/-- Model of Go `path.Clean`. -/
def pathClean (s : String) : String :=
  if s = "" then "."
  else
    let cs := s.data
    let rooted := cs.head? = some '/'
    let body := joinSegs ((cleanStack rooted (splitSlash cs)).reverse)
    if rooted then String.mk ('/' :: body)
    else if body = [] then "."
    else String.mk body

/-- Model of Go `path.Join` for two elements: empty elements are skipped,
the rest are joined with `/` and cleaned. -/
def pathJoin (a b : String) : String :=
  if a = "" ∧ b = "" then ""
  else if a = "" then pathClean b
  else if b = "" then pathClean a
  else pathClean (a ++ "/" ++ b)

/-- Model of Go `path.Ext` / `filepath.Ext`: the suffix starting at the
final dot in the final slash-separated element, or `""`.  The first
argument is the path's characters in reverse; the second accumulates the
characters already passed (in correct order). -/
def extOfAux : List Char → List Char → String
  | [], _ => ""
  | c :: rest, acc =>
    if c = '/' then ""
    else if c = '.' then String.mk ('.' :: acc)
    else extOfAux rest (c :: acc)

/-- File-name extension of a slash path (Go `filepath.Ext`). -/
def extOf (s : String) : String :=
  extOfAux s.data.reverse []

/-! ## Go `strings` primitives

`strings.HasPrefix` / `strings.HasSuffix` and prefix stripping, modelled
character-wise. -/

/-- Go `strings.HasPrefix`. -/
def strStarts (s pre : String) : Bool :=
  pre.data.isPrefixOf s.data

/-- Go `strings.HasSuffix`. -/
def strEnds (s suf : String) : Bool :=
  suf.data.reverse.isPrefixOf s.data.reverse

/-- Drop the first `n` characters (Go slice `s[n:]` on ASCII input). -/
def strDropChars (s : String) (n : Nat) : String :=
  String.mk (s.data.drop n)

/-! ## Go `net/http` header primitives

`http.Header.Set` canonicalizes the header name
(`textproto.CanonicalMIMEHeaderKey`) before storing it, while a direct
map index `w.Header()[key]` compares the configured spelling verbatim.
Headers are modelled as an association list with at most one entry per
stored (canonical) name.
-/

/-- Valid MIME header field characters (Go `textproto.validHeaderFieldByte`). -/
def validHeaderFieldChar (c : Char) : Bool :=
  c.isAlphanum ||
    ['!', '#', '$', '%', '&', '*', '+', '-', '.', '^', '_', '|', '~'].contains c ||
    c = Char.ofNat 39 || c = Char.ofNat 96

/-- Canonicalize characters: uppercase at the start and after each hyphen,
lowercase elsewhere (ASCII only, as in Go). -/
def canonChars : Bool → List Char → List Char
  | _, [] => []
  | upper, c :: rest =>
    (if upper then c.toUpper else c.toLower) :: canonChars (c = '-') rest

/-- Model of Go `textproto.CanonicalMIMEHeaderKey`: invalid names are
returned unchanged. -/
def canonicalMIMEHeaderKey (s : String) : String :=
  if s.data.all validHeaderFieldChar then String.mk (canonChars true s.data)
  else s

/-- Header store. -/
abbrev Headers := List (String × String)

/-- `http.Header.Set`: store a single value under the canonicalized name. -/
def hSet (hs : Headers) (k v : String) : Headers :=
  let ck := canonicalMIMEHeaderKey k
  hs.filter (fun e => e.1 ≠ ck) ++ [(ck, v)]

/-- `http.Header.Get`: first value stored under the canonicalized name. -/
def hGet (hs : Headers) (k : String) : Option String :=
  (hs.find? (fun e => e.1 = canonicalMIMEHeaderKey k)).map (·.2)

/-- Raw map-index presence check `_, ok := w.Header()[key]` (no
canonicalization of the queried key). -/
def hAny (hs : Headers) (k : String) : Bool :=
  hs.any (fun e => e.1 = k)

/-! ## Data model -/

/-- What the filesystem reports for one joined path: a regular file with
its contents (open and stat succeed), a directory, open failing with
`IsNotExist`, open succeeding but `Stat` failing, or open failing with
any other error. -/
inductive FsEntry where
  | file (content : String)
  | dir
  | absent
  | fileStatErr
  | openErr
deriving DecidableEq, Repr

/-- Result of `findFile`: an open regular file, a miss, or an I/O error. -/
inductive FindResult where
  | found (content : String)
  | notFound
  | err
deriving DecidableEq, Repr

/-- External collaborators: the filesystem keyed by joined path,
`mime.TypeByExtension` keyed by extension (including the associations
registered in `init`), and `http.DetectContentType` keyed by the file
contents (the Go code sniffs at most the first 512 bytes). -/
structure Env where
  fs : String → FsEntry
  mimeByExt : String → String
  sniff : String → String

/-- The configuration snapshot (config.go), restricted to the fields the
pipeline reads.  Go regular expressions are modelled as total match
oracles; `importFallbackMatcher = none` models `regexp.Compile` failing
on a non-empty `ImportFallbackRegexp`. -/
structure Config where
  rootDirs : List String
  baseURL : String
  allowSkipBaseUrl : Bool
  fallbackDisabled : Bool
  gzipDisabled : Bool
  brotliDisabled : Bool
  headers : Headers
  headersPerPathRegex : List ((String → Bool) × Headers)
  notFoundRegexs : List (String → Bool)
  importFallbackRegexp : String
  importFallbackMatcher : Option (String → Bool)

/-- The request fields the pipeline reads.  `acceptEncoding` and
`accept` are `req.Header.Values(...)` slices: one element per header
line, not per comma-separated token. -/
structure Request where
  urlPath : String
  acceptEncoding : List String
  accept : List String

/-- Response state accumulated in the `http.ResponseWriter`. -/
structure HttpResp where
  headers : Headers := []
  status : Option Nat := none
  body : Option String := none
deriving DecidableEq, Repr

/-- The empty response writer state. -/
def emptyResp : HttpResp := {}

/-- Model of `http.Error`: sets the error content type, the status code
and the message body (followed by the newline `Fprintln` appends). -/
def httpError (resp : HttpResp) (msg : String) (code : Nat) : HttpResp :=
  { headers :=
      hSet (hSet resp.headers "Content-Type" "text/plain; charset=utf-8")
        "X-Content-Type-Options" "nosniff"
    status := some code
    body := some (msg ++ "\n") }

/-- Result of one pipeline stage: the Go `(found bool, err error)` pair
together with the response state, or a `Must` panic. -/
inductive SR where
  | ok (found : Bool) (resp : HttpResp)
  | fail (resp : HttpResp)
  | panicked
deriving DecidableEq, Repr

/-- The import-fallback cache (`sync.Map`), modelled as an association
list where `cacheStore` prepends and `cacheLookup` takes the first hit. -/
abbrev Cache := List (String × String)

/-- `sync.Map.Load`. -/
def cacheLookup (c : Cache) (k : String) : Option String :=
  (c.find? (fun e => e.1 = k)).map (·.2)

/-- `sync.Map.Store` (newest entry shadows). -/
def cacheStore (c : Cache) (k v : String) : Cache :=
  (k, v) :: c

/-! ## serve.go: multi-root lookup -/

/-- `findFile`: iterate `rootDirs` in order; a regular file is returned,
`IsNotExist` and directories advance to the next root (the directory
handle is closed first), and any other open or stat error aborts the
lookup with that error. -/
def findFile (fs : String → FsEntry) (roots : List String)
    (resourcePath : String) : FindResult :=
  match roots with
  | [] => .notFound
  | rootDir :: rest =>
    match fs (pathJoin rootDir resourcePath) with
    | .file c => .found c
    | .dir => findFile fs rest resourcePath
    | .absent => findFile fs rest resourcePath
    | .fileStatErr => .err
    | .openErr => .err

/-! ## serve.go: header policy engine -/

/-- Apply a batch of configured headers with `Set`. -/
def setAll (hs : Headers) (new : Headers) : Headers :=
  new.foldl (fun hs kv => hSet hs kv.1 kv.2) hs

/-- First phase of `applyHeaders`: every matching entry of
`HeadersPerPathRegex` sets its headers. -/
def applyPathHeaders (cfg : Config) (resourcePath : String) (hs : Headers) :
    Headers :=
  cfg.headersPerPathRegex.foldl
    (fun hs rule => if rule.1 resourcePath then setAll hs rule.2 else hs) hs

/-- Second phase of `applyHeaders`: each global header is set only when
the raw map index misses on the configured spelling. -/
def applyGlobalHeaders (cfg : Config) (hs : Headers) : Headers :=
  cfg.headers.foldl
    (fun hs kv => if hAny hs kv.1 then hs else hSet hs kv.1 kv.2) hs

/-- Third phase of `applyHeaders`: the default `Cache-Control`, applied
only when still unset; `no-cache` for `/index.html`, the immutable
policy for every other name. -/
def applyDefaultCacheControl (resourcePath : String) (hs : Headers) :
    Headers :=
  if hAny hs "Cache-Control" then hs
  else if resourcePath ≠ "/index.html" then
    hSet hs "Cache-Control" "public, max-age=31536000, immutable"
  else hSet hs "Cache-Control" "no-cache"

/-- `applyHeaders`: path-specific headers, then missing global headers,
then the default `Cache-Control`. -/
def applyHeaders (cfg : Config) (resourcePath : String) (hs : Headers) :
    Headers :=
  applyDefaultCacheControl resourcePath
    (applyGlobalHeaders cfg (applyPathHeaders cfg resourcePath hs))

/-! ## serve.go: serving -/

/-- `resolveMimeType`: the extension's MIME type; when unmapped, re-find
the original resource and sniff its contents ( `""` on a miss).  `none`
models the `Must` panic on a locator error. -/
def resolveMimeType (env : Env) (cfg : Config) (resourcePath : String) :
    Option String :=
  let ctype := env.mimeByExt (extOf resourcePath)
  if ctype ≠ "" then some ctype
  else
    match findFile env.fs cfg.rootDirs resourcePath with
    | .err => none
    | .found c => some (env.sniff c)
    | .notFound => some ""

/-- `serveContent`: apply the header policy, then serve the byte stream
with status 200 (the request is modelled without range or conditional
headers; the `Stat` inside cannot fail for a file `findFile` accepted). -/
def serveContent (cfg : Config) (name : String) (content : String)
    (resp : HttpResp) : HttpResp :=
  { headers := applyHeaders cfg name resp.headers
    status := some 200
    body := some content }

/-- `findAndServe`: locate the uncompressed resource and serve it; a
locator error propagates. -/
def findAndServe (env : Env) (cfg : Config) (resourcePath : String)
    (resp : HttpResp) : SR :=
  match findFile env.fs cfg.rootDirs resourcePath with
  | .err => .fail resp
  | .notFound => .ok false resp
  | .found c =>
    match resolveMimeType env cfg resourcePath with
    | none => .panicked
    | some ctype =>
      let resp := { resp with headers := hSet resp.headers "Content-Type" ctype }
      .ok true (serveContent cfg resourcePath c resp)

/-- The per-encoding loop of `findAndServeEncoded`.  For each enabled
encoding the client advertises (prefix match on each whole
`Accept-Encoding` value), probe the precompressed sibling; the locator
result's error component is discarded at this call site (blank
identifier in the source), so an error here behaves like a miss. -/
def encLoop (env : Env) (cfg : Config) (req : Request)
    (resourcePath : String) : List String → HttpResp → SR
  | [], resp => findAndServe env cfg resourcePath resp
  | encoding :: rest, resp =>
    if req.acceptEncoding.any (fun v => strStarts v encoding) then
      match findFile env.fs cfg.rootDirs
          (resourcePath ++ "." ++ (if encoding = "gzip" then "gz" else encoding)) with
      | .found c =>
        let resp := { resp with headers := hSet resp.headers "Content-Encoding" encoding }
        match resolveMimeType env cfg resourcePath with
        | none => .panicked
        | some ctype =>
          let resp := { resp with headers := hSet resp.headers "Content-Type" ctype }
          .ok true (serveContent cfg resourcePath c resp)
      | .notFound => encLoop env cfg req resourcePath rest resp
      | .err => encLoop env cfg req resourcePath rest resp
    else encLoop env cfg req resourcePath rest resp

/-- `findAndServeEncoded`: enabled encodings in fixed priority brotli
then gzip, falling through to the uncompressed resource. -/
def findAndServeEncoded (env : Env) (cfg : Config) (req : Request)
    (resourcePath : String) (resp : HttpResp) : SR :=
  encLoop env cfg req resourcePath
    ((if cfg.brotliDisabled then [] else ["br"]) ++
      (if cfg.gzipDisabled then [] else ["gzip"]))
    resp

/-! ## serve.go: fallbacks -/

/-- `fallback`: the SPA fallback decider, gated on `FallbackDisabled`,
the `Accept` values (first value non-empty and none starting with
`text/html` skips) and the `NotFoundRegexs` patterns matched against the
original request URL path. -/
def fallback (env : Env) (cfg : Config) (req : Request) (resp : HttpResp) :
    SR :=
  if cfg.fallbackDisabled then .ok false resp
  else if (req.accept.headD "" ≠ "") ∧
      ¬ (req.accept.any (fun a => strStarts a "text/html") = true) then
    .ok false resp
  else if cfg.notFoundRegexs.any (fun rx => rx req.urlPath) then .ok false resp
  else findAndServeEncoded env cfg req "/index.html" resp

/-- The suffix probe of `importFallback`: `.mjs`, then `.js`, then
`.cjs`, each through the encoding negotiator; the first success is
stored in the cache. -/
def importFallbackProbe (env : Env) (cfg : Config) (req : Request)
    (cache : Cache) (resourcePath : String) (resp : HttpResp) : SR × Cache :=
  match findAndServeEncoded env cfg req (resourcePath ++ ".mjs") resp with
  | .ok true r => (.ok true r, cacheStore cache resourcePath (resourcePath ++ ".mjs"))
  | .ok false r =>
    match findAndServeEncoded env cfg req (resourcePath ++ ".js") r with
    | .ok true r2 => (.ok true r2, cacheStore cache resourcePath (resourcePath ++ ".js"))
    | .ok false r2 =>
      match findAndServeEncoded env cfg req (resourcePath ++ ".cjs") r2 with
      | .ok true r3 => (.ok true r3, cacheStore cache resourcePath (resourcePath ++ ".cjs"))
      | other => (other, cache)
    | other => (other, cache)
  | other => (other, cache)

/-- `importFallback`: gated on the `disable` prefix of the configured
pattern and on the path not already carrying a script suffix; a cache
hit short-circuits to the cached real path; a cache miss with a
non-empty pattern requires a match (a compile failure is an error);
otherwise the suffixes are probed in fixed order. -/
def importFallback (env : Env) (cfg : Config) (req : Request)
    (cache : Cache) (resourcePath : String) (resp : HttpResp) : SR × Cache :=
  if ¬ (strStarts cfg.importFallbackRegexp "disable" = true) ∧
      ¬ (strEnds resourcePath ".mjs" = true) ∧
      ¬ (strEnds resourcePath ".js" = true) ∧
      ¬ (strEnds resourcePath ".cjs" = true) then
    match cacheLookup cache resourcePath with
    | some realPath => (findAndServeEncoded env cfg req realPath resp, cache)
    | none =>
      if cfg.importFallbackRegexp ≠ "" then
        match cfg.importFallbackMatcher with
        | none => (.fail resp, cache)
        | some re =>
          if re resourcePath then
            importFallbackProbe env cfg req cache resourcePath resp
          else (.ok false resp, cache)
      else importFallbackProbe env cfg req cache resourcePath resp
  else (.ok false resp, cache)

/-! ## serve.go: top-level handler -/

/-- A finished request: the written response, or a propagated panic. -/
inductive HandlerOutcome where
  | resp (r : HttpResp)
  | panicked
deriving DecidableEq, Repr

/-- The handler after base-URL normalization: an empty resource path
becomes `index.html`; then primary resolution, import fallback, SPA
fallback; an error from any stage is a 500, full miss is a 404. -/
def handlerResolve (env : Env) (cfg : Config) (req : Request)
    (cache : Cache) (resourcePath0 : String) : HandlerOutcome × Cache :=
  let resourcePath := if resourcePath0 = "" then "index.html" else resourcePath0
  match findAndServeEncoded env cfg req resourcePath emptyResp with
  | .panicked => (.panicked, cache)
  | .fail r => (.resp (httpError r "Internal Server Error" 500), cache)
  | .ok true r => (.resp r, cache)
  | .ok false r =>
    match importFallback env cfg req cache resourcePath r with
    | (.panicked, c) => (.panicked, c)
    | (.fail r2, c) => (.resp (httpError r2 "Internal Server Error" 500), c)
    | (.ok true r2, c) => (.resp r2, c)
    | (.ok false r2, c) =>
      match fallback env cfg req r2 with
      | .panicked => (.panicked, c)
      | .fail r3 => (.resp (httpError r3 "Internal Server Error" 500), c)
      | .ok true r3 => (.resp r3, c)
      | .ok false r3 => (.resp (httpError r3 "Not Found" 404), c)

/-- `handler`: base-URL stripping.  With a non-empty base URL, a
matching prefix is stripped; a path that equals the base URL minus its
trailing slash resolves as the empty (root) path; otherwise the request
is rejected with 404 unless `AllowSkipBaseUrl` passes it through
unmodified. -/
def handler (env : Env) (cfg : Config) (req : Request) (cache : Cache) :
    HandlerOutcome × Cache :=
  if cfg.baseURL ≠ "" then
    if strStarts req.urlPath cfg.baseURL then
      handlerResolve env cfg req cache
        (strDropChars req.urlPath cfg.baseURL.length)
    else if req.urlPath ++ "/" = cfg.baseURL then
      handlerResolve env cfg req cache ""
    else if ¬ cfg.allowSkipBaseUrl then
      (.resp (httpError emptyResp "Not Found" 404), cache)
    else handlerResolve env cfg req cache req.urlPath
  else handlerResolve env cfg req cache req.urlPath

/-! ## Concrete fixtures

A small MIME table (the `init`-registered script types plus the
built-ins the scenarios touch) and concrete environments, configurations
and requests used to evaluate the pipeline at specific inputs. -/

/-- Concrete model of the process MIME registry. -/
def mimeTbl (e : String) : String :=
  if e = ".js" ∨ e = ".mjs" ∨ e = ".cjs" then "application/javascript"
  else if e = ".svg" then "image/svg+xml"
  else if e = ".html" then "text/html; charset=utf-8"
  else if e = ".json" then "application/json"
  else ""

/-- A single-root configuration with every optional feature at its zero
value (the shape the test suite builds). -/
def cfgBase : Config :=
  { rootDirs := ["root"]
    baseURL := ""
    allowSkipBaseUrl := false
    fallbackDisabled := false
    gzipDisabled := false
    brotliDisabled := false
    headers := []
    headersPerPathRegex := []
    notFoundRegexs := []
    importFallbackRegexp := ""
    importFallbackMatcher := none }

/-- Base configuration with gzip negotiation disabled. -/
def cfgNoGzip : Config := { cfgBase with gzipDisabled := true }

/-- Base URL `/app/` with an exclusion pattern anchored at `/app/`. -/
def cfgBaseApp : Config :=
  { cfgBase with
    baseURL := "/app/"
    notFoundRegexs := [fun s => strStarts s "/app/"] }

/-- The same header name configured with a non-canonical spelling in
both header maps. -/
def cfgLower : Config :=
  { cfgBase with
    headers := [("cache-control", "global-value")]
    headersPerPathRegex := [(fun _ => true, [("cache-control", "per-pattern-value")])] }

/-- The same header name configured canonically in both header maps. -/
def cfgCanon : Config :=
  { cfgBase with
    headers := [("Cache-Control", "global-value"), ("X-Extra", "e")]
    headersPerPathRegex := [(fun _ => true, [("Cache-Control", "per-pattern-value")])] }

/-- Two ordered roots. -/
def cfgTwo : Config := { cfgBase with rootDirs := ["rootA", "rootB"] }

/-- Two roots holding the same relative path. -/
def fsTwoRoots (p : String) : FsEntry :=
  if p = "rootA/app.js" then .file "A-bytes"
  else if p = "rootB/app.js" then .file "B-bytes" else .absent

/-- A directory shadowing a file in a later root. -/
def fsDirShadow (p : String) : FsEntry :=
  if p = "rootA/data.json" then .dir
  else if p = "rootB/data.json" then .file "B-file" else .absent

/-- Root serving only `index.html`. -/
def fsHome (p : String) : FsEntry :=
  if p = "root/index.html" then .file "<html>Home</html>"
  else if p = "root" then .dir else .absent

/-- Sibling `.br` probe fails with a non-`IsNotExist` error while the
plain file exists. -/
def fsBrErr (p : String) : FsEntry :=
  if p = "root/x.js.br" then .openErr
  else if p = "root/x.js" then .file "JSDATA" else .absent

/-- The plain probe itself fails with a non-`IsNotExist` error. -/
def fsPlainErr (p : String) : FsEntry :=
  if p = "root/y" then .openErr else .absent

/-- Plain file plus a brotli sibling, no gzip sibling. -/
def fsBrGz (p : String) : FsEntry :=
  if p = "root/a.js" then .file "PLAINJS"
  else if p = "root/a.js.br" then .file "BRBYTES" else .absent

/-- Only the fallback document exists. -/
def fsIdx (p : String) : FsEntry :=
  if p = "root/index.html" then .file "IDX" else .absent

/-- A text file with an unmapped extension. -/
def fsTxt (p : String) : FsEntry :=
  if p = "root/a.txt" then .file "TXT" else .absent

/-- Only `mod.js` exists for the extensionless import `/mod`. -/
def fsMod (p : String) : FsEntry :=
  if p = "root/mod.js" then .file "MOD" else .absent

/-- Default sniffer used by the fixtures. -/
def sniffTxt (_ : String) : String := "text/plain; charset=utf-8"

def envTwoRoots : Env := { fs := fsTwoRoots, mimeByExt := mimeTbl, sniff := sniffTxt }
def envDirShadow : Env := { fs := fsDirShadow, mimeByExt := mimeTbl, sniff := sniffTxt }
def envHome : Env := { fs := fsHome, mimeByExt := mimeTbl, sniff := sniffTxt }
def envBrErr : Env := { fs := fsBrErr, mimeByExt := mimeTbl, sniff := sniffTxt }
def envPlainErr : Env := { fs := fsPlainErr, mimeByExt := mimeTbl, sniff := sniffTxt }
def envBrGz : Env := { fs := fsBrGz, mimeByExt := mimeTbl, sniff := sniffTxt }
def envIdx : Env := { fs := fsIdx, mimeByExt := mimeTbl, sniff := sniffTxt }
def envTxt : Env := { fs := fsTxt, mimeByExt := mimeTbl, sniff := sniffTxt }
def envMod : Env := { fs := fsMod, mimeByExt := mimeTbl, sniff := sniffTxt }

def reqRoot : Request := { urlPath := "/", acceptEncoding := [], accept := [] }
def reqBrOnly : Request := { urlPath := "/x.js", acceptEncoding := ["br"], accept := [] }
def reqPlainY : Request := { urlPath := "/y", acceptEncoding := [], accept := [] }
def reqGzBr : Request := { urlPath := "/a.js", acceptEncoding := ["gzip, br"], accept := [] }
def reqBrA : Request := { urlPath := "/a.js", acceptEncoding := ["br"], accept := [] }
def reqAppMissing : Request := { urlPath := "/app/missing", acceptEncoding := [], accept := [] }
def reqAppHit : Request := { urlPath := "/app/a.txt", acceptEncoding := [], accept := [] }
def reqTxt : Request := { urlPath := "/a.txt", acceptEncoding := [], accept := [] }
def reqMod : Request := { urlPath := "/mod", acceptEncoding := [], accept := [] }

/-! ## Header-store lemmas -/

theorem strAppend_assoc (a b c : String) : a ++ b ++ c = a ++ (b ++ c) := by
  apply String.ext
  simp [String.data_append]

theorem find?_filter_of_imp {α : Type} (l : List α) (p r : α → Bool)
    (h : ∀ x, p x = true → r x = true) :
    List.find? p (List.filter r l) = List.find? p l := by
  induction l with
  | nil => rfl
  | cons a t ih =>
    rw [List.filter_cons]
    cases hp : p a with
    | true =>
      have hr := h a hp
      simp [hr, List.find?_cons, hp]
    | false =>
      cases hr : r a with
      | true => simp [hr, List.find?_cons, hp, ih]
      | false => simp [hr, List.find?_cons, hp, ih]

theorem any_filter_of_imp {α : Type} (l : List α) (p r : α → Bool)
    (h : ∀ x, p x = true → r x = true) :
    (List.filter r l).any p = l.any p := by
  induction l with
  | nil => rfl
  | cons a t ih =>
    rw [List.filter_cons]
    cases hp : p a with
    | true =>
      have hr := h a hp
      simp [hr, hp]
    | false =>
      cases hr : r a with
      | true => simp [hr, hp, ih]
      | false => simp [hr, hp, ih]

theorem hGet_hSet (hs : Headers) (k v q : String) :
    hGet (hSet hs k v) q =
      if canonicalMIMEHeaderKey q = canonicalMIMEHeaderKey k then some v
      else hGet hs q := by
  unfold hGet hSet
  rw [List.find?_append]
  by_cases h : canonicalMIMEHeaderKey q = canonicalMIMEHeaderKey k
  · have hnone : List.find? (fun e => decide (e.1 = canonicalMIMEHeaderKey q))
        (List.filter (fun e => decide ¬ e.1 = canonicalMIMEHeaderKey k) hs) = none := by
      rw [List.find?_eq_none]
      intro x hx hpx
      have h2 : ¬ x.1 = canonicalMIMEHeaderKey k := by
        simpa using (List.mem_filter.mp hx).2
      have h3 : x.1 = canonicalMIMEHeaderKey q := by simpa using hpx
      exact h2 (h3.trans h)
    rw [if_pos h, hnone]
    simp [List.find?, h]
  · have hlast : List.find? (fun e => decide (e.1 = canonicalMIMEHeaderKey q))
        [(canonicalMIMEHeaderKey k, v)] = none := by
      rw [List.find?]
      rw [decide_eq_false (fun heq => h heq.symm)]
      rfl
    rw [if_neg h, hlast]
    rw [find?_filter_of_imp]
    · simp
    · intro x hx
      simp at hx ⊢
      intro heq
      exact h (hx ▸ heq)

theorem hGet_hSet_self (hs : Headers) (k v : String) :
    hGet (hSet hs k v) k = some v := by
  rw [hGet_hSet, if_pos rfl]

theorem hGet_hSet_ne (hs : Headers) (k v q : String)
    (h : canonicalMIMEHeaderKey q ≠ canonicalMIMEHeaderKey k) :
    hGet (hSet hs k v) q = hGet hs q := by
  rw [hGet_hSet, if_neg h]

theorem hAny_hSet_ne (hs : Headers) (k v q : String)
    (h : q ≠ canonicalMIMEHeaderKey k) :
    hAny (hSet hs k v) q = hAny hs q := by
  unfold hAny hSet
  rw [List.any_append]
  have hlast : List.any [(canonicalMIMEHeaderKey k, v)]
      (fun e => decide (e.1 = q)) = false := by
    simp
    exact fun heq => h heq.symm
  rw [hlast, Bool.or_false]
  rw [any_filter_of_imp]
  intro x hx
  simp at hx ⊢
  intro heq
  exact h (hx ▸ heq)

theorem hAny_true_of_hGet_some (hs : Headers) (q v : String)
    (hv : hGet hs q = some v) :
    hAny hs (canonicalMIMEHeaderKey q) = true := by
  unfold hGet at hv
  rcases Option.map_eq_some'.mp hv with ⟨e, he, hev⟩
  have hmem := List.mem_of_find?_eq_some he
  have hpe : e.1 = canonicalMIMEHeaderKey q := by
    simpa using List.find?_some he
  unfold hAny
  rw [List.any_eq_true]
  exact ⟨e, hmem, by simp [hpe]⟩

/-! ## Header policy phase lemmas -/

theorem setAll_hGet_preserve (new : Headers) (hs : Headers) (q : String)
    (h : ∀ kv ∈ new, canonicalMIMEHeaderKey kv.1 ≠ canonicalMIMEHeaderKey q) :
    hGet (setAll hs new) q = hGet hs q := by
  induction new generalizing hs with
  | nil => rfl
  | cons kv t ih =>
    show hGet (setAll (hSet hs kv.1 kv.2) t) q = hGet hs q
    rw [ih _ (fun kv2 hm => h kv2 (List.mem_cons_of_mem _ hm))]
    exact hGet_hSet_ne _ _ _ _ (fun heq => h kv (by simp) heq.symm)

theorem setAll_hAny_preserve (new : Headers) (hs : Headers) (q : String)
    (h : ∀ kv ∈ new, canonicalMIMEHeaderKey kv.1 ≠ q) :
    hAny (setAll hs new) q = hAny hs q := by
  induction new generalizing hs with
  | nil => rfl
  | cons kv t ih =>
    show hAny (setAll (hSet hs kv.1 kv.2) t) q = hAny hs q
    rw [ih _ (fun kv2 hm => h kv2 (List.mem_cons_of_mem _ hm))]
    exact hAny_hSet_ne _ _ _ _ (fun heq => h kv (by simp) heq.symm)

theorem pathRules_hGet_preserve (p q : String)
    (rules : List ((String → Bool) × Headers)) (hs : Headers)
    (h : ∀ rule ∈ rules, rule.1 p = true →
      ∀ kv ∈ rule.2, canonicalMIMEHeaderKey kv.1 ≠ canonicalMIMEHeaderKey q) :
    hGet (rules.foldl
      (fun hs rule => if rule.1 p then setAll hs rule.2 else hs) hs) q =
      hGet hs q := by
  induction rules generalizing hs with
  | nil => rfl
  | cons rule t ih =>
    rw [List.foldl_cons]
    rw [ih _ (fun r hm => h r (List.mem_cons_of_mem _ hm))]
    by_cases hr : rule.1 p = true
    · rw [if_pos hr]
      exact setAll_hGet_preserve _ _ _ (h rule (by simp) hr)
    · rw [if_neg hr]

theorem applyPathHeaders_hGet_preserve (cfg : Config) (p : String)
    (hs : Headers) (q : String)
    (h : ∀ rule ∈ cfg.headersPerPathRegex, rule.1 p = true →
      ∀ kv ∈ rule.2, canonicalMIMEHeaderKey kv.1 ≠ canonicalMIMEHeaderKey q) :
    hGet (applyPathHeaders cfg p hs) q = hGet hs q :=
  pathRules_hGet_preserve p q cfg.headersPerPathRegex hs h

theorem pathRules_hAny_preserve (p q : String)
    (rules : List ((String → Bool) × Headers)) (hs : Headers)
    (h : ∀ rule ∈ rules, rule.1 p = true →
      ∀ kv ∈ rule.2, canonicalMIMEHeaderKey kv.1 ≠ q) :
    hAny (rules.foldl
      (fun hs rule => if rule.1 p then setAll hs rule.2 else hs) hs) q =
      hAny hs q := by
  induction rules generalizing hs with
  | nil => rfl
  | cons rule t ih =>
    rw [List.foldl_cons]
    rw [ih _ (fun r hm => h r (List.mem_cons_of_mem _ hm))]
    by_cases hr : rule.1 p = true
    · rw [if_pos hr]
      exact setAll_hAny_preserve _ _ _ (h rule (by simp) hr)
    · rw [if_neg hr]

theorem applyPathHeaders_hAny_preserve (cfg : Config) (p : String)
    (hs : Headers) (q : String)
    (h : ∀ rule ∈ cfg.headersPerPathRegex, rule.1 p = true →
      ∀ kv ∈ rule.2, canonicalMIMEHeaderKey kv.1 ≠ q) :
    hAny (applyPathHeaders cfg p hs) q = hAny hs q :=
  pathRules_hAny_preserve p q cfg.headersPerPathRegex hs h

theorem globalRules_hGet_preserve_some (globals : Headers) (hs : Headers)
    (q v : String)
    (hcanon : ∀ kv ∈ globals, canonicalMIMEHeaderKey kv.1 = kv.1)
    (hv : hGet hs q = some v) :
    hGet (globals.foldl
      (fun hs kv => if hAny hs kv.1 then hs else hSet hs kv.1 kv.2) hs) q =
      some v := by
  induction globals generalizing hs with
  | nil => exact hv
  | cons kv t ih =>
    rw [List.foldl_cons]
    apply ih _ (fun kv2 hm => hcanon kv2 (List.mem_cons_of_mem _ hm))
    by_cases ha : hAny hs kv.1 = true
    · rw [if_pos ha]; exact hv
    · rw [if_neg (by simpa using ha)]
      rw [hGet_hSet]
      by_cases heq : canonicalMIMEHeaderKey q = canonicalMIMEHeaderKey kv.1
      · exfalso
        apply ha
        have hk : canonicalMIMEHeaderKey kv.1 = kv.1 := hcanon kv (by simp)
        have := hAny_true_of_hGet_some hs q v hv
        rw [heq, hk] at this
        exact this
      · rw [if_neg heq]; exact hv

theorem applyGlobalHeaders_hGet_preserve_some (cfg : Config) (hs : Headers)
    (q v : String)
    (hcanon : ∀ kv ∈ cfg.headers, canonicalMIMEHeaderKey kv.1 = kv.1)
    (hv : hGet hs q = some v) :
    hGet (applyGlobalHeaders cfg hs) q = some v :=
  globalRules_hGet_preserve_some cfg.headers hs q v hcanon hv

theorem globalRules_hAny_preserve (globals : Headers) (hs : Headers)
    (q : String)
    (h : ∀ kv ∈ globals, canonicalMIMEHeaderKey kv.1 ≠ q) :
    hAny (globals.foldl
      (fun hs kv => if hAny hs kv.1 then hs else hSet hs kv.1 kv.2) hs) q =
      hAny hs q := by
  induction globals generalizing hs with
  | nil => rfl
  | cons kv t ih =>
    rw [List.foldl_cons]
    rw [ih _ (fun kv2 hm => h kv2 (List.mem_cons_of_mem _ hm))]
    by_cases ha : hAny hs kv.1 = true
    · rw [if_pos ha]
    · rw [if_neg (by simpa using ha)]
      exact hAny_hSet_ne _ _ _ _ (fun heq => h kv (by simp) heq.symm)

theorem applyGlobalHeaders_hAny_preserve (cfg : Config) (hs : Headers)
    (q : String)
    (h : ∀ kv ∈ cfg.headers, canonicalMIMEHeaderKey kv.1 ≠ q) :
    hAny (applyGlobalHeaders cfg hs) q = hAny hs q :=
  globalRules_hAny_preserve cfg.headers hs q h

theorem applyDefaultCacheControl_hGet_preserve_some (p q v : String)
    (hs : Headers) (hv : hGet hs q = some v) :
    hGet (applyDefaultCacheControl p hs) q = some v := by
  unfold applyDefaultCacheControl
  by_cases ha : hAny hs "Cache-Control" = true
  · rw [if_pos ha]; exact hv
  · rw [if_neg (by simpa using ha)]
    have hne : canonicalMIMEHeaderKey q ≠ canonicalMIMEHeaderKey "Cache-Control" := by
      intro heq
      apply ha
      have := hAny_true_of_hGet_some hs q v hv
      rw [heq, (by decide : canonicalMIMEHeaderKey "Cache-Control" = "Cache-Control")] at this
      exact this
    by_cases hp : p ≠ "/index.html"
    · rw [if_pos hp, hGet_hSet_ne _ _ _ _ hne]; exact hv
    · rw [if_neg hp, hGet_hSet_ne _ _ _ _ hne]; exact hv

theorem applyDefaultCacheControl_fill (p : String) (hs : Headers)
    (h : hAny hs "Cache-Control" = false) :
    hGet (applyDefaultCacheControl p hs) "Cache-Control" =
      some (if p = "/index.html" then "no-cache"
            else "public, max-age=31536000, immutable") := by
  unfold applyDefaultCacheControl
  rw [if_neg (by simp [h])]
  by_cases hp : p = "/index.html"
  · rw [if_neg (by simp [hp]), if_pos hp, hGet_hSet_self]
  · rw [if_pos hp, if_neg hp, hGet_hSet_self]

/-! ## Key-uniqueness lemmas -/

theorem hSet_keys_nodup (hs : Headers) (k v : String)
    (h : (hs.map Prod.fst).Nodup) : ((hSet hs k v).map Prod.fst).Nodup := by
  unfold hSet
  rw [List.map_append, List.nodup_append]
  refine ⟨?_, by simp, ?_⟩
  · exact List.Nodup.sublist ((List.filter_sublist hs).map Prod.fst) h
  · intro a ha hb
    simp only [List.map_cons, List.map_nil, List.mem_singleton] at hb
    subst hb
    rcases List.mem_map.mp ha with ⟨e, he, hfe⟩
    have h2 : ¬ e.1 = canonicalMIMEHeaderKey k := by
      simpa using (List.mem_filter.mp he).2
    exact h2 hfe

theorem setAll_keys_nodup (new : Headers) (hs : Headers)
    (h : (hs.map Prod.fst).Nodup) : ((setAll hs new).map Prod.fst).Nodup := by
  induction new generalizing hs with
  | nil => exact h
  | cons kv t ih =>
    show ((setAll (hSet hs kv.1 kv.2) t).map Prod.fst).Nodup
    exact ih _ (hSet_keys_nodup _ _ _ h)

theorem pathRules_keys_nodup (p : String)
    (rules : List ((String → Bool) × Headers)) (hs : Headers)
    (h : (hs.map Prod.fst).Nodup) :
    ((rules.foldl
      (fun hs rule => if rule.1 p then setAll hs rule.2 else hs) hs).map
        Prod.fst).Nodup := by
  induction rules generalizing hs with
  | nil => exact h
  | cons rule t ih =>
    rw [List.foldl_cons]
    apply ih
    by_cases hr : rule.1 p = true
    · rw [if_pos hr]; exact setAll_keys_nodup _ _ h
    · rw [if_neg hr]; exact h

theorem globalRules_keys_nodup (globals : Headers) (hs : Headers)
    (h : (hs.map Prod.fst).Nodup) :
    ((globals.foldl
      (fun hs kv => if hAny hs kv.1 then hs else hSet hs kv.1 kv.2) hs).map
        Prod.fst).Nodup := by
  induction globals generalizing hs with
  | nil => exact h
  | cons kv t ih =>
    rw [List.foldl_cons]
    apply ih
    by_cases ha : hAny hs kv.1 = true
    · rw [if_pos ha]; exact h
    · rw [if_neg (by simpa using ha)]; exact hSet_keys_nodup _ _ _ h

theorem applyDefaultCacheControl_keys_nodup (p : String) (hs : Headers)
    (h : (hs.map Prod.fst).Nodup) :
    ((applyDefaultCacheControl p hs).map Prod.fst).Nodup := by
  unfold applyDefaultCacheControl
  by_cases ha : hAny hs "Cache-Control" = true
  · rw [if_pos ha]; exact h
  · rw [if_neg (by simpa using ha)]
    by_cases hp : p ≠ "/index.html"
    · rw [if_pos hp]; exact hSet_keys_nodup _ _ _ h
    · rw [if_neg hp]; exact hSet_keys_nodup _ _ _ h

theorem applyHeaders_keys_nodup (cfg : Config) (p : String) (hs : Headers)
    (h : (hs.map Prod.fst).Nodup) :
    ((applyHeaders cfg p hs).map Prod.fst).Nodup := by
  unfold applyHeaders applyGlobalHeaders applyPathHeaders
  exact applyDefaultCacheControl_keys_nodup _ _
    (globalRules_keys_nodup _ _ (pathRules_keys_nodup _ _ _ h))

/-! ## Pipeline lemmas -/

theorem encLoop_skip_all (env : Env) (cfg : Config) (req : Request)
    (p : String) (l : List String) (resp : HttpResp)
    (h : ∀ e ∈ l, req.acceptEncoding.any (fun v => strStarts v e) = false) :
    encLoop env cfg req p l resp = findAndServe env cfg p resp := by
  induction l with
  | nil => rfl
  | cons e t ih =>
    unfold encLoop
    rw [if_neg (by simp [h e (by simp)])]
    exact ih (fun e2 hm => h e2 (List.mem_cons_of_mem _ hm))

theorem encLoop_miss_resp (env : Env) (cfg : Config) (req : Request)
    (p : String) (l : List String) (resp r : HttpResp)
    (h : encLoop env cfg req p l resp = .ok false r) : r = resp := by
  induction l generalizing resp with
  | nil =>
    unfold encLoop findAndServe at h
    split at h
    · exact absurd h (by simp)
    · injection h with h1 h2
      exact h2.symm
    · split at h
      · exact absurd h (by simp)
      · exact absurd h (by simp)
  | cons e t ih =>
    unfold encLoop at h
    split at h
    · split at h
      · split at h
        · exact absurd h (by simp)
        · exact absurd h (by simp)
      · exact ih _ h
      · exact ih _ h
    · exact ih _ h

theorem findAndServeEncoded_miss_resp (env : Env) (cfg : Config)
    (req : Request) (p : String) (resp r : HttpResp)
    (h : findAndServeEncoded env cfg req p resp = .ok false r) : r = resp :=
  encLoop_miss_resp env cfg req p _ resp r h

/-! ## Cache-preservation lemmas -/

theorem cacheLookup_store_ne (c : Cache) (p v q : String) (h : p ≠ q) :
    cacheLookup (cacheStore c p v) q = cacheLookup c q := by
  unfold cacheLookup cacheStore
  rw [List.find?_cons]
  simp [h]

theorem probe_cache_preserve (env : Env) (cfg : Config) (req : Request)
    (cache : Cache) (p : String) (resp : HttpResp) (q r : String)
    (hmiss : cacheLookup cache p = none) (hq : cacheLookup cache q = some r) :
    cacheLookup (importFallbackProbe env cfg req cache p resp).2 q = some r := by
  have hpq : p ≠ q := by
    intro heq
    rw [heq, hq] at hmiss
    exact Option.noConfusion hmiss
  unfold importFallbackProbe
  split <;> try (simp only; rw [cacheLookup_store_ne _ _ _ _ hpq]; exact hq)
  · split <;> try (simp only; rw [cacheLookup_store_ne _ _ _ _ hpq]; exact hq)
    · split <;> try (simp only; rw [cacheLookup_store_ne _ _ _ _ hpq]; exact hq)
      · exact hq
    · exact hq
  · exact hq

theorem importFallback_cache_preserve (env : Env) (cfg : Config)
    (req : Request) (cache : Cache) (p : String) (resp : HttpResp)
    (q r : String) (hq : cacheLookup cache q = some r) :
    cacheLookup (importFallback env cfg req cache p resp).2 q = some r := by
  unfold importFallback
  split
  · split
    · exact hq
    · rename_i hl
      split
      · split
        · exact hq
        · split
          · exact probe_cache_preserve env cfg req cache p resp q r hl hq
          · exact hq
      · exact probe_cache_preserve env cfg req cache p resp q r hl hq
  · exact hq

theorem handlerResolve_cache_preserve (env : Env) (cfg : Config)
    (req : Request) (cache : Cache) (rp0 : String) (q r : String)
    (hq : cacheLookup cache q = some r) :
    cacheLookup (handlerResolve env cfg req cache rp0).2 q = some r := by
  simp only [handlerResolve]
  split
  · exact hq
  · exact hq
  · exact hq
  rename_i r2 heqf
  have hpres := importFallback_cache_preserve env cfg req cache
    (if rp0 = "" then "index.html" else rp0) r2 q r hq
  split
  · rename_i c hif
    rw [hif] at hpres; exact hpres
  · rename_i r3 c hif
    rw [hif] at hpres; exact hpres
  · rename_i r3 c hif
    rw [hif] at hpres; exact hpres
  · rename_i r3 c hif
    rw [hif] at hpres
    split <;> exact hpres

theorem handler_cache_preserve (env : Env) (cfg : Config) (req : Request)
    (cache : Cache) (q r : String) (hq : cacheLookup cache q = some r) :
    cacheLookup (handler env cfg req cache).2 q = some r := by
  unfold handler
  split
  · split
    · exact handlerResolve_cache_preserve env cfg req cache _ q r hq
    · split
      · exact handlerResolve_cache_preserve env cfg req cache _ q r hq
      · split
        · exact hq
        · exact handlerResolve_cache_preserve env cfg req cache _ q r hq
  · exact handlerResolve_cache_preserve env cfg req cache _ q r hq

/-! ## Claim theorems -/

/-- C1: for a configuration whose `rootDirs` list is `[A, B]` in that
order and a resource path that exists as a regular file under both
roots, the lookup returns the file under `A`: first match wins,
deterministically, regardless of what `B` contains. -/
theorem findFile_first_root_wins (env : Env) (cfg : Config)
    (A B p ca cb : String)
    (hroots : cfg.rootDirs = [A, B])
    (hA : env.fs (pathJoin A p) = .file ca)
    (_hB : env.fs (pathJoin B p) = .file cb) :
    findFile env.fs cfg.rootDirs p = .found ca := by
  rw [hroots]
  simp [findFile, hA]

/-- C1 witness: concrete two-root lookup returning the first root's
content. -/
theorem findFile_first_root_wins_witness :
    findFile envTwoRoots.fs cfgTwo.rootDirs "/app.js" = .found "A-bytes" :=
  findFile_first_root_wins envTwoRoots cfgTwo "rootA" "rootB" "/app.js"
    "A-bytes" "B-bytes" (by decide) (by decide) (by decide)

/-- C10: a directory at the joined path in an earlier root does not end
the multi-root search: iteration continues to the next root, so with
roots `[A, B]`, a directory under `A` and a regular file under `B` at
the same relative path, `B`'s file is found and served. -/
theorem directory_skipped_next_root (env : Env) (cfg : Config)
    (A B p c ct : String)
    (hroots : cfg.rootDirs = [A, B])
    (hA : env.fs (pathJoin A p) = .dir)
    (hB : env.fs (pathJoin B p) = .file c)
    (hmime : env.mimeByExt (extOf p) = ct)
    (hct : ct ≠ "") :
    findFile env.fs cfg.rootDirs p = .found c ∧
    ∀ resp : HttpResp, ∃ r, findAndServe env cfg p resp = .ok true r ∧
      r.status = some 200 ∧ r.body = some c := by
  have hf : findFile env.fs cfg.rootDirs p = .found c := by
    rw [hroots]
    simp [findFile, hA, hB]
  refine ⟨hf, fun resp => ?_⟩
  have hm : resolveMimeType env cfg p = some ct := by
    unfold resolveMimeType
    simp [hmime, hct]
  refine ⟨serveContent cfg p c
    { resp with headers := hSet resp.headers "Content-Type" ct }, ?_, rfl, rfl⟩
  simp only [findAndServe, hf, hm]

/-- C10 witness: concrete directory-shadowing lookup served from the
second root. -/
theorem directory_skipped_next_root_witness :
    findFile envDirShadow.fs cfgTwo.rootDirs "/data.json" = .found "B-file" ∧
    ∃ r, findAndServe envDirShadow cfgTwo "/data.json" emptyResp =
        .ok true r ∧ r.status = some 200 ∧ r.body = some "B-file" := by
  have h := directory_skipped_next_root envDirShadow cfgTwo "rootA" "rootB"
    "/data.json" "B-file" "application/json" (by decide) (by decide)
    (by decide) (by decide) (by decide)
  exact ⟨h.1, h.2 emptyResp⟩

/-- C3: with a non-empty `baseURL`, a request path starting with it is
stripped before lookup; a path equal to `baseURL` minus its trailing
slash resolves as the empty remainder; any other path is rejected
immediately with a 404 and no filesystem access when
`allowSkipBaseUrl` is false, and is used unmodified otherwise; an empty
resulting path is replaced by `index.html`. -/
theorem handler_baseURL_normalization (env : Env) (cfg : Config)
    (cache : Cache) (hbase : cfg.baseURL ≠ "") :
    (∀ req : Request, strStarts req.urlPath cfg.baseURL = true →
      handler env cfg req cache =
        handlerResolve env cfg req cache
          (strDropChars req.urlPath cfg.baseURL.length)) ∧
    (∀ req : Request, strStarts req.urlPath cfg.baseURL = false →
      req.urlPath ++ "/" = cfg.baseURL →
      handler env cfg req cache = handlerResolve env cfg req cache "") ∧
    (∀ req : Request, strStarts req.urlPath cfg.baseURL = false →
      req.urlPath ++ "/" ≠ cfg.baseURL → cfg.allowSkipBaseUrl = false →
      handler env cfg req cache =
        (.resp (httpError emptyResp "Not Found" 404), cache)) ∧
    (∀ req : Request, strStarts req.urlPath cfg.baseURL = false →
      req.urlPath ++ "/" ≠ cfg.baseURL → cfg.allowSkipBaseUrl = true →
      handler env cfg req cache = handlerResolve env cfg req cache req.urlPath) ∧
    (∀ req : Request, handlerResolve env cfg req cache "" =
      handlerResolve env cfg req cache "index.html") := by
  refine ⟨?_, ?_, ?_, ?_, ?_⟩
  · intro req hsw
    unfold handler
    rw [if_pos hbase, if_pos hsw]
  · intro req hsw heq
    unfold handler
    rw [if_pos hbase, if_neg (by simp [hsw]), if_pos heq]
  · intro req hsw hne hskip
    unfold handler
    rw [if_pos hbase, if_neg (by simp [hsw]), if_neg hne,
      if_pos (by simp [hskip])]
  · intro req hsw hne hskip
    unfold handler
    rw [if_pos hbase, if_neg (by simp [hsw]), if_neg hne,
      if_neg (by simp [hskip])]
  · intro req
    rfl

/-- C3 witness: with base URL `/app/`, a matching path is resolved with
the prefix stripped and a mismatching path is rejected with 404. -/
theorem handler_baseURL_normalization_witness :
    handler envTxt cfgBaseApp reqAppHit [] =
      handlerResolve envTxt cfgBaseApp reqAppHit []
        (strDropChars reqAppHit.urlPath cfgBaseApp.baseURL.length) ∧
    handler envTxt cfgBaseApp
        { urlPath := "/other", acceptEncoding := [], accept := [] } [] =
      (.resp (httpError emptyResp "Not Found" 404), []) := by
  constructor
  · exact (handler_baseURL_normalization envTxt cfgBaseApp [] (by decide)).1
      reqAppHit (by decide)
  · exact (handler_baseURL_normalization envTxt cfgBaseApp [] (by decide)).2.2.1
      { urlPath := "/other", acceptEncoding := [], accept := [] }
      (by decide) (by decide) (by decide)

/-- C7: when no configured header rule sets `Cache-Control`, the
default applied at serve time is `no-cache` for `/index.html` and the
immutable policy for every other name; and the concrete request for `/`
against a root holding `index.html` is served 200 with that content and
`Cache-Control: no-cache` (resolved through the SPA fallback). -/
theorem default_cache_control :
    (∀ (cfg : Config) (p : String) (hs : Headers),
      (∀ rule ∈ cfg.headersPerPathRegex, rule.1 p = true →
        ∀ kv ∈ rule.2, canonicalMIMEHeaderKey kv.1 ≠ "Cache-Control") →
      (∀ kv ∈ cfg.headers, canonicalMIMEHeaderKey kv.1 ≠ "Cache-Control") →
      hAny hs "Cache-Control" = false →
      hGet (applyHeaders cfg p hs) "Cache-Control" =
        some (if p = "/index.html" then "no-cache"
              else "public, max-age=31536000, immutable")) ∧
    handler envHome cfgBase reqRoot [] =
      (.resp { headers := [("Content-Type", "text/html; charset=utf-8"),
                           ("Cache-Control", "no-cache")],
               status := some 200,
               body := some "<html>Home</html>" }, []) := by
  constructor
  · intro cfg p hs hrules hglob hcc
    unfold applyHeaders
    have h1 : hAny (applyPathHeaders cfg p hs) "Cache-Control" = false := by
      rw [applyPathHeaders_hAny_preserve cfg p hs _ hrules]
      exact hcc
    have h2 : hAny (applyGlobalHeaders cfg (applyPathHeaders cfg p hs))
        "Cache-Control" = false := by
      rw [applyGlobalHeaders_hAny_preserve cfg _ _ hglob]
      exact h1
    exact applyDefaultCacheControl_fill p _ h2
  · decide

/-- C7 witness: the default fills `no-cache` for the entry document and
the immutable policy elsewhere, at the base configuration. -/
theorem default_cache_control_witness :
    hGet (applyHeaders cfgBase "/index.html" []) "Cache-Control" =
      some "no-cache" ∧
    hGet (applyHeaders cfgBase "/data.json" []) "Cache-Control" =
      some "public, max-age=31536000, immutable" := by
  constructor
  · have h := default_cache_control.1 cfgBase "/index.html" []
      (by intro rule hr; simp [cfgBase] at hr)
      (by intro kv hk; simp [cfgBase] at hk) (by decide)
    simpa using h
  · have h := default_cache_control.1 cfgBase "/data.json" []
      (by intro rule hr; simp [cfgBase] at hr)
      (by intro kv hk; simp [cfgBase] at hk) (by decide)
    simpa using h

/-- C4 counterexample: a request advertising `Accept-Encoding:
"gzip, br"` (one header value, so the token `br` appears after a comma)
with brotli enabled and `<path>.br` present is *not* served the brotli
sibling: the value-prefix check misses `br`, the gzip sibling is absent,
and the uncompressed file is served with no `Content-Encoding`. -/
theorem accept_encoding_token_not_prefix :
    findFile envBrGz.fs cfgBase.rootDirs "/a.js.br" = .found "BRBYTES" ∧
    handler envBrGz cfgBase reqGzBr [] =
      (.resp { headers := [("Content-Type", "application/javascript"),
                           ("Cache-Control", "public, max-age=31536000, immutable")],
               status := some 200,
               body := some "PLAINJS" }, []) := by
  constructor
  · decide
  · decide

/-- C4 amended: prefix matching applies to each whole `Accept-Encoding`
header value, so `br` is matched only when some value string begins with
`br` (e.g. `br;q=0.8`), not wherever the token appears; under that
condition, with brotli enabled, `<path>.br` present, the original path's
extension mapped, and no configured header rule naming
`Content-Encoding` or `Content-Type`, the response is 200 with
`Content-Encoding: br`, body identical to `<path>.br`, and the
`Content-Type` inferred from the original path's extension; brotli is
tried before gzip in fixed priority. -/
theorem brotli_prefix_match_served (env : Env) (cfg : Config)
    (req : Request) (p cbr ct : String)
    (hbr : cfg.brotliDisabled = false)
    (hacc : req.acceptEncoding.any (fun v => strStarts v "br") = true)
    (hsib : findFile env.fs cfg.rootDirs (p ++ ".br") = .found cbr)
    (hmime : env.mimeByExt (extOf p) = ct)
    (hct : ct ≠ "")
    (hrules : ∀ rule ∈ cfg.headersPerPathRegex, rule.1 p = true →
      ∀ kv ∈ rule.2, canonicalMIMEHeaderKey kv.1 ≠ "Content-Encoding" ∧
        canonicalMIMEHeaderKey kv.1 ≠ "Content-Type")
    (hglob : ∀ kv ∈ cfg.headers, canonicalMIMEHeaderKey kv.1 = kv.1) :
    ∃ r, findAndServeEncoded env cfg req p emptyResp = .ok true r ∧
      r.status = some 200 ∧ r.body = some cbr ∧
      hGet r.headers "Content-Encoding" = some "br" ∧
      hGet r.headers "Content-Type" = some ct := by
  have hdotbr : p ++ "." ++ "br" = p ++ ".br" := by
    rw [strAppend_assoc]
    exact congrArg (fun t => p ++ t) (by decide)
  have hm : resolveMimeType env cfg p = some ct := by
    unfold resolveMimeType
    simp [hmime, hct]
  have hlist : ((if cfg.brotliDisabled then [] else ["br"]) ++
      (if cfg.gzipDisabled then [] else ["gzip"])) =
      "br" :: (if cfg.gzipDisabled then [] else ["gzip"]) := by
    rw [hbr]
    rfl
  have hif : (if ("br" : String) = "gzip" then "gz" else "br") = "br" := by
    decide
  have heq : findAndServeEncoded env cfg req p emptyResp =
      .ok true (serveContent cfg p cbr
        { emptyResp with
          headers := hSet (hSet emptyResp.headers "Content-Encoding" "br")
            "Content-Type" ct }) := by
    unfold findAndServeEncoded
    rw [hlist]
    unfold encLoop
    rw [if_pos hacc, hif, hdotbr, hsib, hm]
  refine ⟨_, heq, rfl, rfl, ?_, ?_⟩
  · show hGet (applyHeaders cfg p
      (hSet (hSet emptyResp.headers "Content-Encoding" "br")
        "Content-Type" ct)) "Content-Encoding" = some "br"
    have e1 : hGet (hSet (hSet emptyResp.headers "Content-Encoding" "br")
        "Content-Type" ct) "Content-Encoding" = some "br" := by
      rw [hGet_hSet_ne _ _ _ _ (by decide), hGet_hSet_self]
    unfold applyHeaders
    have e2 : hGet (applyPathHeaders cfg p
        (hSet (hSet emptyResp.headers "Content-Encoding" "br")
          "Content-Type" ct)) "Content-Encoding" = some "br" := by
      rw [applyPathHeaders_hGet_preserve cfg p _ _ ?_]
      · exact e1
      · intro rule hr hm2 kv hkv
        rw [(by decide : canonicalMIMEHeaderKey "Content-Encoding" =
          "Content-Encoding")]
        exact (hrules rule hr hm2 kv hkv).1
    exact applyDefaultCacheControl_hGet_preserve_some _ _ _ _
      (applyGlobalHeaders_hGet_preserve_some cfg _ _ _ hglob e2)
  · show hGet (applyHeaders cfg p
      (hSet (hSet emptyResp.headers "Content-Encoding" "br")
        "Content-Type" ct)) "Content-Type" = some ct
    have e1 : hGet (hSet (hSet emptyResp.headers "Content-Encoding" "br")
        "Content-Type" ct) "Content-Type" = some ct := hGet_hSet_self _ _ _
    unfold applyHeaders
    have e2 : hGet (applyPathHeaders cfg p
        (hSet (hSet emptyResp.headers "Content-Encoding" "br")
          "Content-Type" ct)) "Content-Type" = some ct := by
      rw [applyPathHeaders_hGet_preserve cfg p _ _ ?_]
      · exact e1
      · intro rule hr hm2 kv hkv
        rw [(by decide : canonicalMIMEHeaderKey "Content-Type" =
          "Content-Type")]
        exact (hrules rule hr hm2 kv hkv).2
    exact applyDefaultCacheControl_hGet_preserve_some _ _ _ _
      (applyGlobalHeaders_hGet_preserve_some cfg _ _ _ hglob e2)

/-- C4 amended witness: a request whose `Accept-Encoding` value is
exactly `br` is served the brotli sibling. -/
theorem brotli_prefix_match_served_witness :
    ∃ r, findAndServeEncoded envBrGz cfgBase reqBrA "/a.js" emptyResp =
        .ok true r ∧
      r.status = some 200 ∧ r.body = some "BRBYTES" ∧
      hGet r.headers "Content-Encoding" = some "br" ∧
      hGet r.headers "Content-Type" = some "application/javascript" :=
  brotli_prefix_match_served envBrGz cfgBase reqBrA "/a.js" "BRBYTES"
    "application/javascript" (by decide) (by decide) (by decide) (by decide)
    (by decide)
    (by intro rule hr; simp [cfgBase] at hr)
    (by intro kv hk; simp [cfgBase] at hk)

/-- C5 counterexample: with base URL `/app/` and the exclusion pattern
"starts with `/app/`", the request `/app/missing` is stripped to the
resource path `missing`, which matches no pattern; the claim then
requires the SPA fallback to serve `/index.html` (which exists), but the
code matches the patterns against the original request URL path and
returns 404. -/
theorem notFound_regex_matches_request_path :
    strStarts "missing" "/app/" = false ∧
    strDropChars reqAppMissing.urlPath cfgBaseApp.baseURL.length = "missing" ∧
    findFile envIdx.fs cfgBaseApp.rootDirs "/index.html" = .found "IDX" ∧
    handler envIdx cfgBaseApp reqAppMissing [] =
      (.resp { headers := [("Content-Type", "text/plain; charset=utf-8"),
                           ("X-Content-Type-Options", "nosniff")],
               status := some 404,
               body := some "Not Found\n" }, []) := by
  refine ⟨by decide, by decide, by decide, by decide⟩

/-- C5 amended: the SPA fallback returns "not found" without filesystem
probing when `fallbackDisabled` is true, or the request's first `Accept`
value is non-empty and none of the `Accept` values begin with
`text/html` (absence of the header, or an empty first value, counts as
accepting), or the *original request URL path* (not the stripped
resource path) matches a configured `notFoundRegexps` pattern;
otherwise it resolves `/index.html` through the encoding negotiator. -/
theorem fallback_gating (env : Env) (cfg : Config) (req : Request)
    (resp : HttpResp) :
    (cfg.fallbackDisabled = true → fallback env cfg req resp = .ok false resp) ∧
    (req.accept.headD "" ≠ "" →
      req.accept.any (fun a => strStarts a "text/html") = false →
      fallback env cfg req resp = .ok false resp) ∧
    (cfg.notFoundRegexs.any (fun rx => rx req.urlPath) = true →
      fallback env cfg req resp = .ok false resp) ∧
    (cfg.fallbackDisabled = false →
      (req.accept.headD "" = "" ∨
        req.accept.any (fun a => strStarts a "text/html") = true) →
      cfg.notFoundRegexs.any (fun rx => rx req.urlPath) = false →
      fallback env cfg req resp =
        findAndServeEncoded env cfg req "/index.html" resp) := by
  refine ⟨?_, ?_, ?_, ?_⟩
  · intro hd
    unfold fallback
    rw [if_pos hd]
  · intro hne hany
    unfold fallback
    by_cases hd : cfg.fallbackDisabled = true
    · rw [if_pos hd]
    · rw [if_neg hd, if_pos ⟨hne, by simp [hany]⟩]
  · intro hmatch
    unfold fallback
    by_cases hd : cfg.fallbackDisabled = true
    · rw [if_pos hd]
    · rw [if_neg hd]
      by_cases hacc : (req.accept.headD "" ≠ "") ∧
          ¬ (req.accept.any (fun a => strStarts a "text/html") = true)
      · rw [if_pos hacc]
      · rw [if_neg hacc, if_pos hmatch]
  · intro hd hacc hnm
    unfold fallback
    rw [if_neg (by simp [hd])]
    rw [if_neg ?_, if_neg (by simp [hnm])]
    rintro ⟨h1, h2⟩
    rcases hacc with h | h
    · exact h1 h
    · exact h2 h

/-- C5 amended witness: the fallback is skipped when a pattern matches
the request URL path, and attempted when the gates pass. -/
theorem fallback_gating_witness :
    fallback envIdx cfgBaseApp reqAppMissing emptyResp =
      .ok false emptyResp ∧
    fallback envIdx cfgBase reqPlainY emptyResp =
      findAndServeEncoded envIdx cfgBase reqPlainY "/index.html" emptyResp := by
  constructor
  · exact (fallback_gating envIdx cfgBaseApp reqAppMissing emptyResp).2.2.1
      (by decide)
  · exact (fallback_gating envIdx cfgBase reqPlainY emptyResp).2.2.2
      (by decide) (Or.inl (by decide)) (by decide)

/-- C6 counterexample: with the shared header name spelled
`cache-control` in both maps, the per-pattern phase stores the canonical
`Cache-Control`, the global phase's raw presence check on the
non-canonical spelling misses, and the global value overwrites the
per-pattern value in the served response. -/
theorem global_overwrites_noncanonical_header :
    applyHeaders cfgLower "/a.txt" [] = [("Cache-Control", "global-value")] ∧
    handler envTxt cfgLower reqTxt [] =
      (.resp { headers := [("Content-Type", "text/plain; charset=utf-8"),
                           ("Cache-Control", "global-value")],
               status := some 200,
               body := some "TXT" }, []) := by
  constructor
  · decide
  · decide

/-- C6 amended: each header name has exactly one value in the final
response (stored keys stay duplicate-free); and any header set by the
matching per-pattern phase survives the global merge and the default
`Cache-Control` phase provided the global map's names are spelled in
canonical MIME form — in particular a per-pattern value then beats a
global value for the same name.  (With a non-canonical global spelling
the raw presence check misses and the global value overwrites.) -/
theorem header_precedence_canonical (cfg : Config) (p : String)
    (hs : Headers) :
    ((hs.map Prod.fst).Nodup → ((applyHeaders cfg p hs).map Prod.fst).Nodup) ∧
    ((∀ kv ∈ cfg.headers, canonicalMIMEHeaderKey kv.1 = kv.1) →
      ∀ k v, hGet (applyPathHeaders cfg p hs) k = some v →
        hGet (applyHeaders cfg p hs) k = some v) := by
  constructor
  · exact applyHeaders_keys_nodup cfg p hs
  · intro hcanon k v hv
    unfold applyHeaders
    exact applyDefaultCacheControl_hGet_preserve_some _ _ _ _
      (applyGlobalHeaders_hGet_preserve_some cfg _ _ _ hcanon hv)

/-- C6 amended witness: with canonical spellings in both maps, the
per-pattern `Cache-Control` value wins over the global one. -/
theorem header_precedence_canonical_witness :
    ((applyHeaders cfgCanon "/p" []).map Prod.fst).Nodup ∧
    hGet (applyHeaders cfgCanon "/p" []) "Cache-Control" =
      some "per-pattern-value" := by
  constructor
  · exact (header_precedence_canonical cfgCanon "/p" []).1 (by decide)
  · exact (header_precedence_canonical cfgCanon "/p" []).2
      (by intro kv hk; simp [cfgCanon, cfgBase] at hk
          rcases hk with h | h <;> rw [h] <;> decide)
      "Cache-Control" "per-pattern-value" (by decide)

/-- C2 counterexample: with `<path>.br` raising a non-`IsNotExist` open
error, a brotli-accepting request is *not* answered 500: the call site
discards the locator error (blank identifier), the stage is treated as a
miss, and the uncompressed file is served 200. -/
theorem sibling_probe_error_not_500 :
    findFile envBrErr.fs cfgBase.rootDirs "/x.js.br" = .err ∧
    handler envBrErr cfgBase reqBrOnly [] =
      (.resp { headers := [("Content-Type", "application/javascript"),
                           ("Cache-Control", "public, max-age=31536000, immutable")],
               status := some 200,
               body := some "JSDATA" }, []) := by
  constructor
  · decide
  · decide

/-- C2 amended: a filesystem error other than non-existence raised while
probing a root at the resource path itself propagates out of
`findAndServe` and surfaces as a 500 from the handler; but an error
raised while probing a precompressed sibling is discarded at that call
site and treated as a miss, letting resolution continue with the
uncompressed path. -/
theorem locator_error_propagation :
    (∀ (env : Env) (cfg : Config) (p : String) (resp : HttpResp),
      findFile env.fs cfg.rootDirs p = .err →
      findAndServe env cfg p resp = .fail resp) ∧
    (∀ (env : Env) (cfg : Config) (req : Request) (cache : Cache),
      cfg.baseURL = "" →
      req.acceptEncoding.any (fun v => strStarts v "br") = false →
      req.acceptEncoding.any (fun v => strStarts v "gzip") = false →
      findFile env.fs cfg.rootDirs
        (if req.urlPath = "" then "index.html" else req.urlPath) = .err →
      handler env cfg req cache =
        (.resp (httpError emptyResp "Internal Server Error" 500), cache)) ∧
    (∀ (env : Env) (cfg : Config) (req : Request) (p : String)
        (resp : HttpResp),
      cfg.brotliDisabled = false → cfg.gzipDisabled = true →
      req.acceptEncoding.any (fun v => strStarts v "br") = true →
      findFile env.fs cfg.rootDirs (p ++ ".br") = .err →
      findAndServeEncoded env cfg req p resp = findAndServe env cfg p resp) := by
  refine ⟨?_, ?_, ?_⟩
  · intro env cfg p resp hff
    unfold findAndServe
    rw [hff]
  · intro env cfg req cache hbase hbr hgz hff
    unfold handler
    rw [if_neg (by simp [hbase])]
    have hskip : ∀ e ∈ ((if cfg.brotliDisabled then [] else ["br"]) ++
        (if cfg.gzipDisabled then [] else ["gzip"])),
        req.acceptEncoding.any (fun v => strStarts v e) = false := by
      intro e he
      have : e = "br" ∨ e = "gzip" := by
        rcases List.mem_append.mp he with h | h
        · by_cases hb : cfg.brotliDisabled = true
          · rw [if_pos hb] at h
            exact absurd h (List.not_mem_nil e)
          · rw [if_neg hb] at h
            left
            simpa using h
        · by_cases hg : cfg.gzipDisabled = true
          · rw [if_pos hg] at h
            exact absurd h (List.not_mem_nil e)
          · rw [if_neg hg] at h
            right
            simpa using h
      rcases this with rfl | rfl
      · exact hbr
      · exact hgz
    have hfase : findAndServeEncoded env cfg req
        (if req.urlPath = "" then "index.html" else req.urlPath) emptyResp =
        .fail emptyResp := by
      unfold findAndServeEncoded
      rw [encLoop_skip_all env cfg req _ _ _ hskip]
      unfold findAndServe
      rw [hff]
    simp only [handlerResolve, hfase]
  · intro env cfg req p resp hbrd hgzd hacc hsibErr
    have hdotbr : p ++ "." ++ "br" = p ++ ".br" := by
      rw [strAppend_assoc]
      exact congrArg (fun t => p ++ t) (by decide)
    have hlist : ((if cfg.brotliDisabled then [] else ["br"]) ++
        (if cfg.gzipDisabled then [] else ["gzip"])) = ["br"] := by
      rw [hbrd, hgzd]
      rfl
    have hif : (if ("br" : String) = "gzip" then "gz" else "br") = "br" := by
      decide
    unfold findAndServeEncoded
    rw [hlist]
    unfold encLoop
    rw [if_pos hacc, hif, hdotbr, hsibErr]
    rfl

/-- C2 amended witness: a plain-probe error yields a concrete 500, and a
sibling-probe error concretely degrades to the uncompressed lookup. -/
theorem locator_error_propagation_witness :
    handler envPlainErr cfgBase reqPlainY [] =
      (.resp (httpError emptyResp "Internal Server Error" 500), []) ∧
    findAndServeEncoded envBrErr cfgNoGzip reqBrOnly "/x.js" emptyResp =
      findAndServe envBrErr cfgNoGzip "/x.js" emptyResp := by
  constructor
  · exact locator_error_propagation.2.1 envPlainErr cfgBase reqPlainY []
      (by decide) (by decide) (by decide) (by decide)
  · exact locator_error_propagation.2.2 envBrErr cfgNoGzip reqBrOnly "/x.js"
      emptyResp (by decide) (by decide) (by decide) (by decide)

/-- C8: import fallback runs only when the configured pattern lacks the
`disable` prefix and the path carries none of the script suffixes; on a
cache miss with a non-empty (compilable) restriction pattern the path
must match or the result is "not found" with no filesystem probing;
otherwise the suffixes are probed in fixed order `.mjs`, `.js`, `.cjs`,
the first success is stored in the cache and served, and three misses
report "not found". -/
theorem importFallback_gating_and_probe_order (env : Env) (cfg : Config)
    (req : Request) (cache : Cache) (p : String) (resp : HttpResp) :
    (strStarts cfg.importFallbackRegexp "disable" = true →
      importFallback env cfg req cache p resp = (.ok false resp, cache)) ∧
    ((strEnds p ".mjs" || strEnds p ".js" ||
        strEnds p ".cjs") = true →
      importFallback env cfg req cache p resp = (.ok false resp, cache)) ∧
    (strStarts cfg.importFallbackRegexp "disable" = false →
      strEnds p ".mjs" = false → strEnds p ".js" = false →
      strEnds p ".cjs" = false →
      cacheLookup cache p = none →
      (∀ m, cfg.importFallbackRegexp ≠ "" →
        cfg.importFallbackMatcher = some m → m p = false →
        importFallback env cfg req cache p resp = (.ok false resp, cache)) ∧
      ((cfg.importFallbackRegexp = "" ∨
          (∃ m, cfg.importFallbackMatcher = some m ∧ m p = true)) →
        (∀ r, findAndServeEncoded env cfg req (p ++ ".mjs") resp =
            .ok true r →
          importFallback env cfg req cache p resp =
            (.ok true r, cacheStore cache p (p ++ ".mjs"))) ∧
        (∀ r, findAndServeEncoded env cfg req (p ++ ".mjs") resp =
            .ok false resp →
          findAndServeEncoded env cfg req (p ++ ".js") resp = .ok true r →
          importFallback env cfg req cache p resp =
            (.ok true r, cacheStore cache p (p ++ ".js"))) ∧
        (∀ r, findAndServeEncoded env cfg req (p ++ ".mjs") resp =
            .ok false resp →
          findAndServeEncoded env cfg req (p ++ ".js") resp =
            .ok false resp →
          findAndServeEncoded env cfg req (p ++ ".cjs") resp = .ok true r →
          importFallback env cfg req cache p resp =
            (.ok true r, cacheStore cache p (p ++ ".cjs"))) ∧
        (findAndServeEncoded env cfg req (p ++ ".mjs") resp =
            .ok false resp →
          findAndServeEncoded env cfg req (p ++ ".js") resp =
            .ok false resp →
          findAndServeEncoded env cfg req (p ++ ".cjs") resp =
            .ok false resp →
          importFallback env cfg req cache p resp =
            (.ok false resp, cache)))) := by
  refine ⟨?_, ?_, ?_⟩
  · intro hd
    unfold importFallback
    rw [if_neg (fun hc => hc.1 hd)]
  · intro hsuf
    unfold importFallback
    rw [if_neg ?_]
    rintro ⟨_, h2, h3, h4⟩
    rcases Bool.or_eq_true_iff.mp hsuf with h | h
    · rcases Bool.or_eq_true_iff.mp h with h5 | h5
      · exact h2 h5
      · exact h3 h5
    · exact h4 h
  · intro hd h1 h2 h3 hl
    have hgate : ¬ (strStarts cfg.importFallbackRegexp "disable" = true) ∧
        ¬ (strEnds p ".mjs" = true) ∧ ¬ (strEnds p ".js" = true) ∧
        ¬ (strEnds p ".cjs" = true) :=
      ⟨by simp [hd], by simp [h1], by simp [h2], by simp [h3]⟩
    constructor
    · intro m hpat hm hmp
      unfold importFallback
      rw [if_pos hgate, hl]
      simp only
      rw [if_pos hpat, hm]
      simp only
      rw [if_neg (by simp [hmp])]
    · intro helig
      have hred : importFallback env cfg req cache p resp =
          importFallbackProbe env cfg req cache p resp := by
        unfold importFallback
        rw [if_pos hgate, hl]
        simp only
        rcases helig with hpat | ⟨m, hm, hmp⟩
        · rw [if_neg (by simp [hpat])]
        · by_cases hpat : cfg.importFallbackRegexp ≠ ""
          · rw [if_pos hpat, hm]
            simp only
            rw [if_pos hmp]
          · rw [if_neg hpat]
      refine ⟨?_, ?_, ?_, ?_⟩
      · intro r hmjs
        rw [hred]
        unfold importFallbackProbe
        rw [hmjs]
      · intro r hmjs hjs
        rw [hred]
        unfold importFallbackProbe
        rw [hmjs]
        simp only
        rw [hjs]
      · intro r hmjs hjs hcjs
        rw [hred]
        unfold importFallbackProbe
        rw [hmjs]
        simp only
        rw [hjs]
        simp only
        rw [hcjs]
      · intro hmjs hjs hcjs
        rw [hred]
        unfold importFallbackProbe
        rw [hmjs]
        simp only
        rw [hjs]
        simp only
        rw [hcjs]

/-- C8 witness: `/mod` with only `mod.js` on disk resolves through the
suffix probe, serves the file, and stores the mapping. -/
theorem importFallback_gating_and_probe_order_witness :
    importFallback envMod cfgBase reqMod [] "/mod" emptyResp =
      (.ok true { headers := [("Content-Type", "application/javascript"),
                              ("Cache-Control",
                                "public, max-age=31536000, immutable")],
                  status := some 200,
                  body := some "MOD" },
        cacheStore [] "/mod" ("/mod" ++ ".js")) := by
  have h := ((importFallback_gating_and_probe_order envMod cfgBase reqMod []
    "/mod" emptyResp).2.2 (by decide) (by decide) (by decide) (by decide)
    (by decide)).2 (Or.inl (by decide))
  exact h.2.1 _ (by decide) (by decide)

/-- C9: with the gate open, a cache entry mapping an unresolved path to
a real path short-circuits `importFallback` to resolving the cached real
path with the cache unchanged — the suffix search is not re-run — and no
call of `importFallback` or of the whole handler ever removes or changes
an existing cache entry. -/
theorem importFallback_cache_authoritative (env : Env) (cfg : Config)
    (req : Request) (cache : Cache) (p realPath : String)
    (resp : HttpResp) :
    (strStarts cfg.importFallbackRegexp "disable" = false →
      strEnds p ".mjs" = false → strEnds p ".js" = false →
      strEnds p ".cjs" = false →
      cacheLookup cache p = some realPath →
      importFallback env cfg req cache p resp =
        (findAndServeEncoded env cfg req realPath resp, cache)) ∧
    (∀ q r, cacheLookup cache q = some r →
      cacheLookup (importFallback env cfg req cache p resp).2 q = some r) ∧
    (∀ q r, cacheLookup cache q = some r →
      cacheLookup (handler env cfg req cache).2 q = some r) := by
  refine ⟨?_, ?_, ?_⟩
  · intro hd h1 h2 h3 hl
    unfold importFallback
    rw [if_pos ⟨by simp [hd], by simp [h1], by simp [h2], by simp [h3]⟩, hl]
  · intro q r hq
    exact importFallback_cache_preserve env cfg req cache p resp q r hq
  · intro q r hq
    exact handler_cache_preserve env cfg req cache q r hq

/-- C9 witness: a populated cache entry short-circuits to the cached
real path, and a full handler run preserves the entry. -/
theorem importFallback_cache_authoritative_witness :
    importFallback envMod cfgBase reqMod [("/mod", "/mod.js")] "/mod"
        emptyResp =
      (findAndServeEncoded envMod cfgBase reqMod "/mod.js" emptyResp,
        [("/mod", "/mod.js")]) ∧
    cacheLookup
      (handler envMod cfgBase reqMod [("/mod", "/mod.js")]).2 "/mod" =
      some "/mod.js" := by
  constructor
  · exact (importFallback_cache_authoritative envMod cfgBase reqMod
      [("/mod", "/mod.js")] "/mod" "/mod.js" emptyResp).1
      (by decide) (by decide) (by decide) (by decide) (by decide)
  · exact (importFallback_cache_authoritative envMod cfgBase reqMod
      [("/mod", "/mod.js")] "/mod" "/mod.js" emptyResp).2.2 "/mod" "/mod.js"
      (by decide)

end SpaBase
